import Mathlib

/-!
Verification of the waveform visualizer core of the repository:
the `FourierPolynomial` waveform model (src/js/fourier-polynomial.js and
the variant with `transform` in src/unnamed/part_006) and the
`Oscilloscope` renderer state machine (src/js/oscilloscope.js).

The embedding is shallow: JavaScript numbers are modelled as real
numbers, arrays as lists of reals, the accumulation loops in `pmax`
and `_eval` as finite sums over `Finset.range`, and the mutable
closure state of the oscilloscope as a record threaded through
explicit state-transition functions.  Rendering (d3/SVG calls) is out
of scope; only the numeric state (`_xs`, `_ys`, `_phase`, the bound
polynomial) is modelled.
-/

open Real

noncomputable section

/-- Waveform model: the closure state of `FourierPolynomial(cs)` is the
single private array `_coefs` of harmonic coefficients. -/
structure FourierPolynomial where
  coefs : List ℝ

/-- Source getter `degree`: `_coefs.length - 1`, as an integer (it is
`-1` on an empty coefficient array). -/
def FourierPolynomial.degree (p : FourierPolynomial) : ℤ :=
  (p.coefs.length : ℤ) - 1

/-- Source getter `pmax`: the loop `for(i = 0; i < _coefs.length; i++)
s += Math.abs(_coefs[i])`, embedded as a finite sum of absolute values. -/
def FourierPolynomial.pmax (p : FourierPolynomial) : ℝ :=
  ∑ i ∈ Finset.range p.coefs.length, |p.coefs.getD i 0|

/-- Source method `_eval(x, phase)`: the loop
`for(i = 0; i <= this.degree; i++) acc += _coefs[i] * Math.sin(2 * i * Math.PI * (x - phase))`,
embedded as a finite sum.  Since `degree = length - 1`, the loop range
`0 <= i <= degree` is exactly `Finset.range length` (empty when the
coefficient array is empty). -/
def FourierPolynomial.evalAt (p : FourierPolynomial) (x phase : ℝ) : ℝ :=
  ∑ i ∈ Finset.range p.coefs.length,
    p.coefs.getD i 0 * Real.sin (2 * i * Real.pi * (x - phase))

/-- Source `_eval(x)` with the `phase` argument omitted: the guard
`phase = phase || 0` turns the missing argument into `0`. -/
def FourierPolynomial.evalAtNoPhase (p : FourierPolynomial) (x : ℝ) : ℝ :=
  p.evalAt x 0

/-- Source method `eval(xs, phase)`: elementwise `_eval` over the input
array via `xs.map`. -/
def FourierPolynomial.evalSeq (p : FourierPolynomial) (xs : List ℝ) (phase : ℝ) : List ℝ :=
  xs.map (fun x => p.evalAt x phase)

/-- Source method `transform(ttree)` of the src/unnamed/part_006 variant:
`_cs = ttree.eval(_cs)` replaces the coefficient array wholesale with
the image of the (opaque) transformation. -/
def FourierPolynomial.transform (p : FourierPolynomial) (ttree : List ℝ → List ℝ) :
    FourierPolynomial :=
  ⟨ttree p.coefs⟩

/-- Oscilloscope numeric state: the closure variables `_fourierp`,
`_xs` (sample positions), `_ys` (sample values) and `_phase` of
`Oscilloscope(fourierp, xs)`.  The drawing-surface variables are out of
scope. -/
structure Oscilloscope where
  fourierp : FourierPolynomial
  xs : List ℝ
  ys : List ℝ
  phase : ℝ

/-- Oscilloscope construction with an explicit sample grid:
`_ys = _fourierp.eval(_xs)` (the omitted phase argument is `0`) and
`_phase = 0`. -/
def Oscilloscope.init (fourierp : FourierPolynomial) (xs : List ℝ) : Oscilloscope :=
  ⟨fourierp, xs, fourierp.evalSeq xs 0, 0⟩

/-- Source getter `_nframes`: `_xs.length`, the number of sample
positions. -/
def Oscilloscope.nframes (o : Oscilloscope) : ℕ :=
  o.xs.length

/-- Source method `cycle()`: `y0 = _ys[0]; _ys = _ys.slice(1, _ys.length);
_ys.push(y0)` rotates the value buffer by one position (for a nonempty
buffer, `tail ++ take 1` is exactly `slice(1) ++ [first]`), and
`_phase += 1 / this._nframes` with NO modulo (the source carries the
comment `TODO: Modulo by one to prevent overflow`). -/
def Oscilloscope.cycle (o : Oscilloscope) : Oscilloscope :=
  { o with
    ys := o.ys.tail ++ o.ys.take 1
    phase := o.phase + 1 / (o.nframes : ℝ) }

/-- Source method `update(fp)`: `_fourierp = fp; _ys = fp.eval(_xs, _phase)`. -/
def Oscilloscope.update (o : Oscilloscope) (fp : FourierPolynomial) : Oscilloscope :=
  { o with
    fourierp := fp
    ys := fp.evalSeq o.xs o.phase }

/-! ### Helper lemmas -/

/-- A `Finset.range`-indexed sum of a function of `getD`-entries is the
sum of the mapped list. -/
lemma sum_range_getD (l : List ℝ) (f : ℝ → ℝ) :
    ∑ i ∈ Finset.range l.length, f (l.getD i 0) = (l.map f).sum := by
  induction l with
  | nil => simp
  | cons a t ih =>
      simp only [List.length_cons, Finset.sum_range_succ', List.getD_cons_succ,
        List.getD_cons_zero, List.map_cons, List.sum_cons, ih]
      ring

/-- One `cycle` rotates the value buffer by one position. -/
lemma Oscilloscope.cycle_ys (o : Oscilloscope) : o.cycle.ys = o.ys.rotate 1 := by
  cases h : o.ys with
  | nil => simp [Oscilloscope.cycle, h]
  | cons a t => simp [Oscilloscope.cycle, h, List.rotate_cons_succ]

/-- `cycle` leaves the sample grid (and hence `nframes`) unchanged. -/
lemma Oscilloscope.cycle_xs (o : Oscilloscope) : o.cycle.xs = o.xs := rfl

/-- Iterating `cycle` rotates the buffer `k` positions and advances the
phase by `k / nframes`. -/
lemma Oscilloscope.cycle_iterate (o : Oscilloscope) (k : ℕ) :
    (Oscilloscope.cycle)^[k] o =
      { o with ys := o.ys.rotate k, phase := o.phase + k * (1 / (o.nframes : ℝ)) } := by
  induction k with
  | zero => simp
  | succ n ih =>
      rw [Function.iterate_succ_apply', ih]
      simp [Oscilloscope.cycle, Oscilloscope.cycle_ys, Oscilloscope.nframes,
        List.rotate_rotate]
      constructor
      · rw [show ∀ l : List ℝ, l.tail ++ l.take 1 = l.rotate 1 from fun l => by
          cases l with
          | nil => simp
          | cons a t => simp [List.rotate_cons_succ]]
        rw [List.rotate_rotate]
      · ring

/-! ### Claims -/

/-- C1: one `cycle()` on a state whose value buffer is the nonempty
sequence `v0 :: rest` (with the grid and the buffer of equal length `n`)
moves the first element to the end, preserves the length, and advances
the phase by exactly `1 / n`. -/
theorem cycle_rotates_once (o : Oscilloscope) (v0 : ℝ) (rest : List ℝ)
    (h : o.ys = v0 :: rest) (hlen : o.xs.length = o.ys.length) :
    o.cycle.ys = rest ++ [v0] ∧
    o.cycle.ys.length = o.ys.length ∧
    o.cycle.phase = o.phase + 1 / (o.ys.length : ℝ) := by
  refine ⟨?_, ?_, ?_⟩
  · simp [Oscilloscope.cycle, h]
  · simp [Oscilloscope.cycle, h]
  · simp [Oscilloscope.cycle, Oscilloscope.nframes, hlen]

/-- Witness for C1 at the concrete state with grid `[0, 1/2]`, buffer
`[2, 3]` and phase `0`. -/
theorem cycle_rotates_once_witness :
    (Oscilloscope.mk ⟨[1]⟩ [0, 1/2] [2, 3] 0).cycle.ys = [3] ++ [2] ∧
    (Oscilloscope.mk ⟨[1]⟩ [0, 1/2] [2, 3] 0).cycle.ys.length =
      (Oscilloscope.mk ⟨[1]⟩ [0, 1/2] [2, 3] 0).ys.length ∧
    (Oscilloscope.mk ⟨[1]⟩ [0, 1/2] [2, 3] 0).cycle.phase =
      (Oscilloscope.mk ⟨[1]⟩ [0, 1/2] [2, 3] 0).phase +
        1 / (((Oscilloscope.mk ⟨[1]⟩ [0, 1/2] [2, 3] 0).ys.length : ℕ) : ℝ) :=
  cycle_rotates_once (Oscilloscope.mk ⟨[1]⟩ [0, 1/2] [2, 3] 0) 2 [3] rfl rfl

/-- C2: `update(m)` rebinds the model, recomputes the value buffer as
`m.eval(_xs, _phase)` at the current phase, and leaves the phase
unchanged; nothing of the previous buffer survives. -/
theorem update_recomputes (o : Oscilloscope) (m : FourierPolynomial) :
    (o.update m).ys = m.evalSeq o.xs o.phase ∧
    (o.update m).phase = o.phase ∧
    (o.update m).fourierp = m ∧
    (o.update m).xs = o.xs :=
  ⟨rfl, rfl, rfl, rfl⟩

/-- C3 (code bug): `cycle()` does not reduce the phase modulo 1, so the
phase escapes `[0, 1)`.  At the concrete oscilloscope with a single
sample position, one `cycle()` already yields phase `1`. -/
theorem cycle_phase_escapes :
    (Oscilloscope.init ⟨[0, 1]⟩ [0]).cycle.phase = 1 ∧
    ¬ (Oscilloscope.init ⟨[0, 1]⟩ [0]).cycle.phase < 1 := by
  constructor
  · simp [Oscilloscope.init, Oscilloscope.cycle, Oscilloscope.nframes]
  · simp [Oscilloscope.init, Oscilloscope.cycle, Oscilloscope.nframes]

/-- Entries of a coefficient list scaled by `0` read back as `0`
(whether or not the index is in range, since the read default is `0`). -/
lemma getD_map_zero_mul (cs : List ℝ) (i : ℕ) :
    (cs.map (fun a => (0:ℝ) * a)).getD i 0 = 0 := by
  induction cs generalizing i with
  | nil => simp
  | cons a t ih =>
      cases i with
      | zero => simp
      | succ j => simp [ih j]

/-- Evaluation of the pure fundamental `[0, 1]` is `sin (2πx)`. -/
lemma evalAt_fundamental (x : ℝ) :
    FourierPolynomial.evalAt ⟨[0, 1]⟩ x 0 = Real.sin (2 * Real.pi * x) := by
  unfold FourierPolynomial.evalAt
  simp [Finset.sum_range_succ]

lemma sin_two_pi_mul_quarter : Real.sin (2 * Real.pi * 0.25) = 1 := by
  rw [show (2:ℝ) * Real.pi * 0.25 = Real.pi / 2 by ring]
  exact Real.sin_pi_div_two

lemma sin_two_pi_mul_half : Real.sin (2 * Real.pi * 0.5) = 0 := by
  rw [show (2:ℝ) * Real.pi * 0.5 = Real.pi by ring]
  exact Real.sin_pi

lemma sin_two_pi_mul_three_quarters : Real.sin (2 * Real.pi * 0.75) = -1 := by
  rw [show (2:ℝ) * Real.pi * 0.75 = Real.pi + Real.pi / 2 by ring]
  rw [Real.sin_add_pi_div_two, Real.cos_pi]

/-- C4: for a nonempty coefficient sequence, `_eval(x, phase)` is the
sum `Σ_{i=0}^{degree} c[i] * sin (2π i (x - phase))`; an omitted phase
argument is taken as `0`; `eval` applies `_eval` elementwise, preserving
order and length (it is a pure map, so the input is not mutated). -/
theorem evalAt_formula (c : List ℝ) (hc : c ≠ []) (x p : ℝ) (xs : List ℝ) :
    (FourierPolynomial.evalAt ⟨c⟩ x p =
      ∑ i ∈ Finset.range ((FourierPolynomial.degree ⟨c⟩).toNat + 1),
        c.getD i 0 * Real.sin (2 * Real.pi * i * (x - p))) ∧
    FourierPolynomial.evalAtNoPhase ⟨c⟩ x = FourierPolynomial.evalAt ⟨c⟩ x 0 ∧
    FourierPolynomial.evalSeq ⟨c⟩ xs p =
      xs.map (fun t => FourierPolynomial.evalAt ⟨c⟩ t p) ∧
    (FourierPolynomial.evalSeq ⟨c⟩ xs p).length = xs.length := by
  refine ⟨?_, rfl, rfl, by simp [FourierPolynomial.evalSeq]⟩
  have hlen : (FourierPolynomial.degree ⟨c⟩).toNat + 1 = c.length := by
    have hpos : 0 < c.length := List.length_pos.mpr hc
    simp [FourierPolynomial.degree]
    omega
  rw [hlen]
  unfold FourierPolynomial.evalAt
  refine Finset.sum_congr rfl fun i _ => ?_
  congr 2
  ring

/-- Witness for C4 at coefficients `[1, 2]`, `x = 1/3`, phase `1/5`,
input sequence `[1/2]`. -/
theorem evalAt_formula_witness :
    ([1, 2] : List ℝ) ≠ [] ∧
    ((FourierPolynomial.evalAt ⟨[1, 2]⟩ (1/3) (1/5) =
      ∑ i ∈ Finset.range ((FourierPolynomial.degree ⟨[1, 2]⟩).toNat + 1),
        ([1, 2] : List ℝ).getD i 0 * Real.sin (2 * Real.pi * i * (1/3 - 1/5))) ∧
    FourierPolynomial.evalAtNoPhase ⟨[1, 2]⟩ (1/3) =
      FourierPolynomial.evalAt ⟨[1, 2]⟩ (1/3) 0 ∧
    FourierPolynomial.evalSeq ⟨[1, 2]⟩ [1/2] (1/5) =
      ([1/2] : List ℝ).map (fun t => FourierPolynomial.evalAt ⟨[1, 2]⟩ t (1/5)) ∧
    (FourierPolynomial.evalSeq ⟨[1, 2]⟩ [1/2] (1/5)).length = ([1/2] : List ℝ).length) :=
  ⟨by simp, evalAt_formula [1, 2] (by simp) (1/3) (1/5) [1/2]⟩

/-- C5: `pmax` is exactly the sum of the absolute coefficients, and it
bounds `|_eval(x, phase)|` for every `x` and `phase`. -/
theorem pmax_bounds (c : List ℝ) (x p : ℝ) :
    FourierPolynomial.pmax ⟨c⟩ = (c.map (fun a => |a|)).sum ∧
    |FourierPolynomial.evalAt ⟨c⟩ x p| ≤ FourierPolynomial.pmax ⟨c⟩ := by
  constructor
  · exact sum_range_getD c (fun a => |a|)
  · unfold FourierPolynomial.evalAt FourierPolynomial.pmax
    refine le_trans (Finset.abs_sum_le_sum_abs _ _) (Finset.sum_le_sum fun i _ => ?_)
    rw [abs_mul]
    exact mul_le_of_le_one_right (abs_nonneg _)
      (abs_le.mpr ⟨Real.neg_one_le_sin _, Real.sin_le_one _⟩)

/-- C6: `_eval` at phase `0` is periodic with period `1`, exactly (each
summand is a sine of an integer multiple of `2π` more). -/
theorem evalAt_periodic (c : List ℝ) (x : ℝ) :
    FourierPolynomial.evalAt ⟨c⟩ (x + 1) 0 = FourierPolynomial.evalAt ⟨c⟩ x 0 := by
  unfold FourierPolynomial.evalAt
  refine Finset.sum_congr rfl fun i _ => ?_
  congr 1
  have h : (2:ℝ) * i * Real.pi * (x + 1 - 0) =
      2 * i * Real.pi * (x - 0) + (i : ℤ) * (2 * Real.pi) := by
    push_cast
    ring
  rw [h, Real.sin_add_int_mul_two_pi]

/-- C7: `cycle()` applied `n` times, where `n ≥ 1` is the common length
of the sample grid and the value buffer, restores the value buffer and
advances the phase by exactly `1`, so the phase returns to its original
value modulo `1`. -/
theorem cycle_full_rotation (o : Oscilloscope) (n : ℕ) (hn : 1 ≤ n)
    (hys : o.ys.length = n) (hxs : o.xs.length = n) :
    ((Oscilloscope.cycle)^[n] o).ys = o.ys ∧
    ((Oscilloscope.cycle)^[n] o).phase = o.phase + 1 ∧
    Int.fract ((Oscilloscope.cycle)^[n] o).phase = Int.fract o.phase := by
  have hn0 : (n : ℝ) ≠ 0 := Nat.cast_ne_zero.mpr (by omega)
  have hnf : (o.nframes : ℝ) = (n : ℝ) := by
    simp [Oscilloscope.nframes, hxs]
  have hys2 : ((Oscilloscope.cycle)^[n] o).ys = o.ys := by
    rw [Oscilloscope.cycle_iterate]
    show o.ys.rotate n = o.ys
    rw [← hys, List.rotate_length]
  have hph : ((Oscilloscope.cycle)^[n] o).phase = o.phase + 1 := by
    rw [Oscilloscope.cycle_iterate]
    show o.phase + n * (1 / (o.nframes : ℝ)) = o.phase + 1
    rw [hnf, mul_one_div, div_self hn0]
  exact ⟨hys2, hph, by rw [hph, Int.fract_add_one]⟩

/-- Witness for C7 at the concrete state with grid `[0, 1/2]`, buffer
`[2, 3]`, phase `0`, and `n = 2`. -/
theorem cycle_full_rotation_witness :
    1 ≤ 2 ∧
    (((Oscilloscope.cycle)^[2] (Oscilloscope.mk ⟨[1]⟩ [0, 1/2] [2, 3] 0)).ys =
      (Oscilloscope.mk ⟨[1]⟩ [0, 1/2] [2, 3] 0).ys ∧
    ((Oscilloscope.cycle)^[2] (Oscilloscope.mk ⟨[1]⟩ [0, 1/2] [2, 3] 0)).phase =
      (Oscilloscope.mk ⟨[1]⟩ [0, 1/2] [2, 3] 0).phase + 1 ∧
    Int.fract ((Oscilloscope.cycle)^[2] (Oscilloscope.mk ⟨[1]⟩ [0, 1/2] [2, 3] 0)).phase =
      Int.fract (Oscilloscope.mk ⟨[1]⟩ [0, 1/2] [2, 3] 0).phase) :=
  ⟨by decide, cycle_full_rotation (Oscilloscope.mk ⟨[1]⟩ [0, 1/2] [2, 3] 0) 2
    (by decide) rfl rfl⟩

/-- C8: `transform(ttree)` replaces the coefficient array with its image
under the transformation, so degree, `pmax` and all evaluations reflect
the new array; the transform scaling every coefficient by `0` yields the
identically-zero evaluation and `pmax = 0`. -/
theorem transform_replaces (p : FourierPolynomial) (t : List ℝ → List ℝ) (x ph : ℝ) :
    (p.transform t).coefs = t p.coefs ∧
    (p.transform t).degree = FourierPolynomial.degree ⟨t p.coefs⟩ ∧
    (p.transform t).pmax = FourierPolynomial.pmax ⟨t p.coefs⟩ ∧
    (p.transform t).evalAt x ph = FourierPolynomial.evalAt ⟨t p.coefs⟩ x ph ∧
    (p.transform (fun cs => cs.map (fun a => 0 * a))).evalAt x ph = 0 ∧
    (p.transform (fun cs => cs.map (fun a => 0 * a))).pmax = 0 := by
  refine ⟨rfl, rfl, rfl, rfl, ?_, ?_⟩
  · unfold FourierPolynomial.evalAt FourierPolynomial.transform
    refine Finset.sum_eq_zero fun i _ => ?_
    rw [getD_map_zero_mul]
    ring
  · unfold FourierPolynomial.pmax FourierPolynomial.transform
    refine Finset.sum_eq_zero fun i _ => ?_
    rw [getD_map_zero_mul, abs_zero]

/-- C9: the concrete fundamental scenario: coefficients `[0, 1]`, sample
positions `[0, 0.25, 0.5, 0.75]`; at construction (phase `0`) the values
are `[0, 1, 0, -1]`, and after one `cycle()` the buffer is
`[1, 0, -1, 0]` with phase `0.25`. -/
theorem fundamental_scenario :
    (Oscilloscope.init ⟨[0, 1]⟩ [0, 0.25, 0.5, 0.75]).ys = [0, 1, 0, -1] ∧
    (Oscilloscope.init ⟨[0, 1]⟩ [0, 0.25, 0.5, 0.75]).cycle.ys = [1, 0, -1, 0] ∧
    (Oscilloscope.init ⟨[0, 1]⟩ [0, 0.25, 0.5, 0.75]).cycle.phase = 0.25 := by
  have hys : (Oscilloscope.init ⟨[0, 1]⟩ [0, 0.25, 0.5, 0.75]).ys = [0, 1, 0, -1] := by
    show FourierPolynomial.evalSeq ⟨[0, 1]⟩ [0, 0.25, 0.5, 0.75] 0 = [0, 1, 0, -1]
    simp only [FourierPolynomial.evalSeq, List.map_cons, List.map_nil, evalAt_fundamental]
    rw [show (2:ℝ) * Real.pi * 0 = 0 by ring, Real.sin_zero,
      sin_two_pi_mul_quarter, sin_two_pi_mul_half, sin_two_pi_mul_three_quarters]
  refine ⟨hys, ?_, ?_⟩
  · show ((Oscilloscope.init ⟨[0, 1]⟩ [0, 0.25, 0.5, 0.75]).ys.tail ++
      (Oscilloscope.init ⟨[0, 1]⟩ [0, 0.25, 0.5, 0.75]).ys.take 1) = [1, 0, -1, 0]
    rw [hys]
    rfl
  · show (0 : ℝ) + 1 / (((Oscilloscope.init ⟨[0, 1]⟩ [0, 0.25, 0.5, 0.75]).nframes : ℕ) : ℝ)
      = 0.25
    norm_num [Oscilloscope.nframes, Oscilloscope.init]

/-- C10: on an empty coefficient sequence nothing fails: `_eval` is the
empty sum, hence constantly `0`, and `pmax` is `0`; likewise after a
transform producing the empty sequence. -/
theorem empty_coefficients_zero (x p : ℝ) (q : FourierPolynomial) :
    FourierPolynomial.evalAt ⟨[]⟩ x p = 0 ∧
    FourierPolynomial.pmax ⟨[]⟩ = 0 ∧
    (q.transform (fun _ => [])).evalAt x p = 0 ∧
    (q.transform (fun _ => [])).pmax = 0 := by
  refine ⟨?_, ?_, ?_, ?_⟩ <;>
    simp [FourierPolynomial.evalAt, FourierPolynomial.pmax, FourierPolynomial.transform]

end
